import Mathlib

/-!
Shallow embedding of `src/load.ts` of the openapi-typescript schema loader:
the recursive loading of JSON/YAML schema documents, the scan-phase pointer
rewriting, and the root-only reference-transform pass, together with the
HTTP-header handling and the content-type parsing fallback.

External platform libraries (WHATWG `URL` resolution, `fetch`, `fs`,
`mime`, `JSON.parse`/`js-yaml` on raw text) are modelled as oracle fields
of a `World` structure; everything written in `load.ts` itself is embedded
as executable Lean functions over that oracle.
-/

namespace OpenapiLoad

/-! ### Basic string helpers (JS semantics) -/

/-- Boolean prefix test on character lists. -/
def isPre : List Char → List Char → Bool
  | [], _ => true
  | _ :: _, [] => false
  | a :: as, b :: bs => a == b && isPre as bs

/-- `String.prototype.replace(pat, rep)` with a plain-string pattern:
replace only the first occurrence of `pat` (JS replaces one occurrence
for string patterns, unlike `String.replace` in Lean which replaces all). -/
def replFirst (pat rep : List Char) : List Char → List Char
  | [] => if pat.isEmpty then rep else []
  | c :: cs =>
    if isPre pat (c :: cs) then rep ++ (c :: cs).drop pat.length
    else c :: replFirst pat rep cs

/-- String-level first-occurrence replacement, as in `v.replace(refURL, href)`. -/
def strReplaceFirst (s pat rep : String) : String :=
  String.mk (replFirst pat.data rep.data s.data)

/-- `v.includes("#")`. -/
def hasHash (v : String) : Bool := v.data.contains '#'

/-- `s.startsWith(pre)`, computed structurally on the character lists. -/
def strStartsWith (s pre : String) : Bool := isPre pre.data s.data

/-- Split a character list at every occurrence of the character `c`. -/
def splitChar (c : Char) : List Char → List (List Char)
  | [] => [[]]
  | x :: xs =>
    if x == c then [] :: splitChar c xs
    else
      match splitChar c xs with
      | [] => [[x]]
      | g :: gs => (x :: g) :: gs

/-- Split a string at every `/`, like `String.prototype.split("/")`. -/
def splitSlash (s : String) : List String :=
  (splitChar '/' s.data).map String.mk

/-- Split a character list at the first `#`, returning the part before and
the part after the delimiter when one exists. -/
def breakAtHash : List Char → Option (List Char × List Char)
  | [] => none
  | c :: cs =>
    if c == '#' then some ([], cs)
    else
      match breakAtHash cs with
      | none => none
      | some (a, b) => some (c :: a, b)

/-! ### Reference pointers -/

/-- A parsed reference pointer: the optional url-part and the ordered path Parts. -/
structure Ref where
  url : String
  parts : List String
deriving Repr, DecidableEq

/-- Modelled from the spec: `parseRef` is imported from `src/utils.ts`, which is
not among the provided sources. Spec §3 (Reference Pointer): a pointer is a
string of form `url#/path` or `#/path` — an optional Location fragment before
the `#` delimiter and an ordered sequence of path Parts after it. We split at
the first `#`; the path Parts are the nonempty `/`-separated segments of the
fragment; a string without `#` is all url-part with no Parts. -/
def parseRef (v : String) : Ref :=
  match breakAtHash v.data with
  | none => ⟨v, []⟩
  | some (u, frag) =>
    ⟨String.mk u, (splitSlash (String.mk frag)).filter (fun s => s ≠ "")⟩

/-! ### Document trees -/

/-- A decoded schema Document: an arbitrary JSON/YAML tree. Objects keep
their key order, as JS objects do. -/
inductive Doc where
  | vnull : Doc
  | vbool : Bool → Doc
  | vnum : Int → Doc
  | vstr : String → Doc
  | varr : List Doc → Doc
  | vobj : List (String × Doc) → Doc
deriving Repr

/-! ### URL / path helpers from `load.ts` -/

/-- `isFile(url)` of `load.ts` checks `url.protocol === "file:"`; on the href
string of a parseable absolute URL the protocol is exactly the prefix up to
the first colon, so the check is a `file:` prefix test. -/
def isFileHref (u : String) : Bool := strStartsWith u "file:"

/-- `path.posix.dirname`, following Node's algorithm: the cut point is the last
slash at index ≥ 1 that is followed somewhere by a non-slash character;
without one the result is `/` for rooted paths and `.` otherwise. -/
def posixDirname (p : String) : String :=
  let cs := p.data
  let n := cs.length
  if n == 0 then "." else
  let hasRoot := cs.headD ' ' == '/'
  let isCut := fun (i : Nat) =>
    decide (1 ≤ i) && (cs.getD i ' ' == '/') &&
      ((List.range n).any (fun j => decide (i < j) && !(cs.getD j ' ' == '/')))
  match ((List.range n).filter isCut).getLast? with
  | none => if hasRoot then "/" else "."
  | some e => if hasRoot && e == 1 then "//" else String.mk (cs.take e)

/-- The nonempty, non-`.` path segments of a slash-separated string. -/
def pathSegments (p : String) : List String :=
  (splitSlash p).filter (fun s => s ≠ "" && s ≠ ".")

/-- Drop the longest common prefix of two segment lists. -/
def dropCommon : List String → List String → List String × List String
  | a :: as, b :: bs => if a = b then dropCommon as bs else (a :: as, b :: bs)
  | as, bs => (as, bs)

/-- `path.posix.relative(from, to)` for the inputs `load.ts` feeds it: strings
without `.`/`..` segments. Node resolves both arguments against the same
working directory, whose segments cancel in the common prefix, so the result
is `..` for every remaining `from` segment followed by the remaining `to`
segments. -/
def posixRelative (fr tgt : String) : String :=
  let p := dropCommon (pathSegments fr) (pathSegments tgt)
  String.intercalate "/" (p.1.map (fun _ => "..") ++ p.2)

/-! ### The per-pointer transform of the root-only pass (lines 201–235) -/

/-- The external oracle for the WHATWG `URL` library: `urlHref s` is
`new URL(s).href`, and `resolve base rel` is `new URL(slash(rel), base).href`. -/
structure UrlModel where
  urlHref : String → String
  resolve : String → String → String

/-- Render `external["<id>"]["<p1>"]["<p2>"]…` exactly as the template
literal on lines 212/220 does. -/
def externRef (id : String) (parts : List String) : String :=
  "external[\"" ++ id ++ "\"][\"" ++ String.intercalate "\"][\"" parts ++ "\"]"

/-- Render `<base>["<r1>"]["<r2>"]…` exactly as the template literal on
line 234 does (an empty Parts list destructures `base` to JS `undefined`). -/
def rootRef (parts : List String) : String :=
  match parts with
  | [] => "undefined[\"\"]"
  | base :: rest => base ++ "[\"" ++ String.intercalate "\"][\"" rest ++ "\"]"

/-- The relativized identifier of lines 208–211 / 216–219 / 239–242: made
root-directory-relative when both the identifier and the root are `file:`
Locations, otherwise kept as-is. -/
def relId (root u : String) : String :=
  if isFileHref u && isFileHref root then posixRelative (posixDirname root) u
  else u

/-- Drop the second-to-last Part when it is the literal `properties`
(lines 227–229; `parts[parts.length - 2]` is JS `undefined` when fewer
than two Parts exist, so short lists are untouched). -/
def collapseProps (parts : List String) : List String :=
  if 2 ≤ parts.length && parts.getD (parts.length - 2) "" == "properties" then
    parts.take (parts.length - 2) ++ parts.drop (parts.length - 1)
  else parts

/-- The reviver body of the root-only transform pass (lines 201–235), applied
to one `$ref` string `v` found inside the document stored under key `sub`,
with `root` the root Location's href. -/
def transformRef (W : UrlModel) (root sub v : String) : String :=
  if !hasHash v then v
  else
    let r := parseRef v
    if r.url ≠ "" && W.urlHref r.url ≠ root then
      externRef (relId root r.url) r.parts
    else if r.url == "" && sub ≠ root then
      externRef (relId root sub) r.parts
    else
      rootRef (collapseProps r.parts)

/-! ### Applying a string rewrite to every `$ref` value of a Document

`JSON.parse(JSON.stringify(doc), reviver)` calls the reviver on every
key/value pair; the rewrites below touch exactly the string values stored
under a `"$ref"` key (the reviver returns every other value unchanged), and
recursion still enters non-string values of a `"$ref"` key, since the
reviver had already processed their members bottom-up. -/

mutual

/-- Structural clone of a Document with `f` applied to every `$ref` string. -/
def mapRefs (f : String → String) : Doc → Doc
  | .vnull => .vnull
  | .vbool b => .vbool b
  | .vnum n => .vnum n
  | .vstr s => .vstr s
  | .varr xs => .varr (mapRefsL f xs)
  | .vobj kvs => .vobj (mapRefsO f kvs)

/-- `mapRefs` over the elements of an array. -/
def mapRefsL (f : String → String) : List Doc → List Doc
  | [] => []
  | x :: xs => mapRefs f x :: mapRefsL f xs

/-- `mapRefs` over the members of an object; a string under `"$ref"` is
rewritten, any other value is recursed into. -/
def mapRefsO (f : String → String) : List (String × Doc) → List (String × Doc)
  | [] => []
  | (k, v) :: r =>
    (k, if k == "$ref" then
          match v with
          | .vstr s => .vstr (f s)
          | w => mapRefs f w
        else mapRefs f v) :: mapRefsO f r

end

/-! ### The scan-phase reviver (lines 170–194) -/

/-- Error message thrown on line 180 for a relative reference inside dynamic JSON. -/
def dynJsonErr (u : String) : String :=
  "Can’t load URL \"" ++ u ++ "\" from dynamic JSON. Load this schema from a URL instead."

/-- `refURL.startsWith("http://") || refURL.startsWith("https://")` (line 176). -/
def isRemoteURL (u : String) : Bool :=
  strStartsWith u "http://" || strStartsWith u "https://"

/-- The child Location of line 183: a remote url-part is parsed as-is, any
other url-part is resolved against the current document's own Location. -/
def resolveChild (W : UrlModel) (base u : String) : String :=
  if isRemoteURL u then W.urlHref u else W.resolve base u

/-- The fragment of a pointer: everything after the first `#`. -/
def afterHash (v : String) : String :=
  match breakAtHash v.data with
  | none => ""
  | some p => String.mk p.2

/-- The scan-phase reviver body (lines 171–193) on one `$ref` string: an empty
url-part leaves the value untouched; a non-empty one either fails (relative
reference inside dynamic JSON), or resolves the child Location and replaces
the url-part's occurrence in `v` with the child's canonical href, recording
the child href to be loaded. -/
def scanRefStr (W : UrlModel) (isJSON : Bool) (base v : String) :
    Except String (String × List String) :=
  let r := parseRef v
  if r.url == "" then .ok (v, [])
  else if isJSON && !isRemoteURL r.url then .error (dynJsonErr r.url)
  else
    let next := resolveChild W base r.url
    .ok (strReplaceFirst v r.url next, [next])

mutual

/-- The scan walk over a Document: clones the tree, rewriting each `$ref`
string through `scanRefStr` and collecting the child Locations to load; the
first reviver throw aborts the whole walk (`JSON.parse` rethrows it). -/
def scanDoc (W : UrlModel) (isJSON : Bool) (base : String) :
    Doc → Except String (Doc × List String)
  | .vnull => .ok (.vnull, [])
  | .vbool b => .ok (.vbool b, [])
  | .vnum n => .ok (.vnum n, [])
  | .vstr s => .ok (.vstr s, [])
  | .varr xs => do
    let p ← scanDocL W isJSON base xs
    .ok (.varr p.1, p.2)
  | .vobj kvs => do
    let p ← scanDocO W isJSON base kvs
    .ok (.vobj p.1, p.2)

/-- `scanDoc` over array elements. -/
def scanDocL (W : UrlModel) (isJSON : Bool) (base : String) :
    List Doc → Except String (List Doc × List String)
  | [] => .ok ([], [])
  | x :: xs => do
    let p ← scanDoc W isJSON base x
    let q ← scanDocL W isJSON base xs
    .ok (p.1 :: q.1, p.2 ++ q.2)

/-- `scanDoc` over object members: a string under `"$ref"` goes through
`scanRefStr` (the reviver's `k !== "$ref" || typeof v !== "string"` guard),
anything else is recursed into. -/
def scanDocO (W : UrlModel) (isJSON : Bool) (base : String) :
    List (String × Doc) → Except String (List (String × Doc) × List String)
  | [] => .ok ([], [])
  | (k, v) :: r => do
    let p ← (if k == "$ref" then
        match v with
        | .vstr s => do
          let q ← scanRefStr W isJSON base s
          (.ok (Doc.vstr q.1, q.2) : Except String (Doc × List String))
        | w => scanDoc W isJSON base w
      else scanDoc W isJSON base v)
    let q ← scanDocO W isJSON base r
    .ok ((k, p.1) :: q.1, p.2 ++ q.2)

end

/-! ### Association-list operations for the JS object `schemas` -/

/-- Lookup in a JS-object-like association list. -/
def aget (m : List (String × Doc)) (k : String) : Option Doc :=
  match m.find? (fun p => p.1 == k) with
  | some p => some p.2
  | none => none

/-- `obj[k] = v`: overwrite in place when the key exists, else append
(JS objects keep insertion order and appending a fresh key adds it last). -/
def aset (m : List (String × Doc)) (k : String) (v : Doc) : List (String × Doc) :=
  if m.any (fun p => p.1 == k) then
    m.map (fun p => if p.1 == k then (k, v) else p)
  else m ++ [(k, v)]

/-- `delete obj[k]`. -/
def adel (m : List (String × Doc)) (k : String) : List (String × Doc) :=
  m.filter (fun p => p.1 ≠ k)

/-! ### HTTP headers (lines 64–86 and 127–138) -/

/-- A caller-supplied header value: either already a string, or a non-string
whose `JSON.stringify` outcome is `some` encoded string or `none` when
stringification throws. -/
inductive HVal where
  | str : String → HVal
  | nonStr : Option String → HVal
deriving Repr, DecidableEq

/-- String-keyed `obj[k] = v` for header maps. -/
def asetS (m : List (String × String)) (k v : String) : List (String × String) :=
  if m.any (fun p => p.1 == k) then
    m.map (fun p => if p.1 == k then (k, v) else p)
  else m ++ [(k, v)]

/-- The `for … of Object.entries` loop of `parseHttpHeaders` over the
accumulated `finalHeaders` object. -/
def parseHttpHeadersGo (acc : List (String × String)) :
    List (String × HVal) → List (String × String)
  | [] => acc
  | (k, .str s) :: r => parseHttpHeadersGo (asetS acc k s) r
  | (k, .nonStr (some j)) :: r => parseHttpHeadersGo (asetS acc k j) r
  | (_, .nonStr none) :: r => parseHttpHeadersGo acc r

/-- `parseHttpHeaders` (lines 64–86): a string value passes through, a
non-string value is JSON-encoded, and a value whose encoding throws is
dropped with a console warning while the loop continues. -/
def parseHttpHeaders (httpHeaders : List (String × HVal)) : List (String × String) :=
  parseHttpHeadersGo [] httpHeaders

/-- Loader options: the root Location's href plus the fetch configuration. -/
structure Opts where
  rootHref : String
  auth : Option String
  httpHeaders : Option (List (String × HVal))
  httpMethod : Option String

/-- The request headers assembled for a remote fetch (lines 127–138): the
default User-Agent, then — when `auth` is set — the token under the literal
key `Authorizaton` as spelled on line 130, then the parsed custom headers. -/
def buildRemoteHeaders (opts : Opts) : List (String × String) :=
  let h0 := [("User-Agent", "openapi-typescript")]
  let h1 := match opts.auth with
    | some a => asetS h0 "Authorizaton" a
    | none => h0
  match opts.httpHeaders with
  | some hh => (parseHttpHeaders hh).foldl (fun acc p => asetS acc p.1 p.2) h1
  | none => h1

/-! ### Parsing fetched content (lines 17–31 and 145–165) -/

/-- The format tag passed to `parseSchema`. -/
inductive Fmt where
  | yaml : Fmt
  | json : Fmt
deriving Repr, DecidableEq

/-- The external world: filesystem, network, mime lookup, text decoders and
the WHATWG URL library. Decoders return the decoded Document or the thrown
error's text. -/
structure World where
  url : UrlModel
  fetchFile : String → Except String String
  mimeType : String → String
  fetchRemote : String → String → List (String × String) → Except String (String × String)
  parseJSON : String → Except String Doc
  parseYAML : String → Except String Doc

/-- `parseSchema` (lines 17–31): decode with the named format, wrapping a
decoder throw as `` `YAML: ...` `` / `` `JSON: ...` ``. -/
def parseSchema (W : World) (contents : String) (t : Fmt) : Except String Doc :=
  match t with
  | .yaml =>
    match W.parseYAML contents with
    | .ok d => .ok d
    | .error e => .error ("YAML: " ++ e)
  | .json =>
    match W.parseJSON contents with
    | .ok d => .ok d
    | .error e => .error ("JSON: " ++ e)

/-- The UnknownFormat message of line 162, including the hint when nonempty. -/
def unknownFormatMsg (contentType : String) : String :=
  "Unknown format" ++ (if contentType ≠ "" then ": \"" ++ contentType ++ "\"" else "")
    ++ ". Only YAML or JSON supported."

/-- Content decoding (lines 145–165): a YAML-flavored hint decodes as YAML, a
JSON-flavored hint as JSON (either failure fatal); otherwise JSON is tried
first, then YAML, and when both throw the load fails with UnknownFormat. -/
def decodeContents (W : World) (contentType contents : String) : Except String Doc :=
  let isYAML := contentType == "application/openapi+yaml" || contentType == "text/yaml"
  let isJSON := contentType == "application/json" || contentType == "application/json5"
    || contentType == "application/openapi+json"
  if isYAML then parseSchema W contents .yaml
  else if isJSON then parseSchema W contents .json
  else
    match parseSchema W contents .json with
    | .ok d => .ok d
    | .error _ =>
      match parseSchema W contents .yaml with
      | .ok d => .ok d
      | .error _ => .error (unknownFormatMsg contentType)

/-! ### The root-only transform pass over the Schema Map (lines 197–249) -/

/-- One iteration of the transform loop for the snapshot key `k`: rewrite the
stored Document's pointers through `transformRef`, then — for a non-root key
whose relativized identifier differs — move the entry to the new key
(`schemas[rel] = schemas[k]; delete schemas[k]`, lines 243–246). -/
def transformStep (W : UrlModel) (root : String) (m : List (String × Doc)) (k : String) :
    List (String × Doc) :=
  let d := (aget m k).getD .vnull
  let d' := mapRefs (transformRef W root k) d
  let m1 := aset m k d'
  if k ≠ root then
    let rel := relId root k
    if rel ≠ k then adel (aset m1 rel d') k else m1
  else m1

/-- The whole transform pass: iterate `transformStep` over the snapshot of the
map's keys taken before the loop (`Object.keys(schemas)`, line 199). -/
def transformPass (W : UrlModel) (root : String) (m : List (String × Doc)) :
    List (String × Doc) :=
  (m.map (fun p => p.1)).foldl (transformStep W root) m

/-! ### The loader itself (lines 97–252) -/

/-- `VIRTUAL_JSON_URL` (line 15); `new URL` leaves this href unchanged. -/
def VIRTUAL_JSON_URL : String := "file:///_json"

/-- The source argument of `load`: a Location href, or dynamic in-memory JSON. -/
inductive Source where
  | url : String → Source
  | inline : Doc → Source

/-- The caller-visible mutable state threaded through `load`: the shared
Schema Map and the Visited Set (`urlCache`), plus a ghost trace of the
Locations for which a fetch was attempted (file read or HTTP request),
recording effects the pure model cannot otherwise observe. -/
structure LoadState where
  schemas : List (String × Doc)
  urlCache : List String
  fetchTrace : List String

/-- Fetch and decode an uncached URL (lines 117–165): a `file:` Location is
read from disk with a mime-derived hint, any other Location is fetched over
HTTP with the assembled headers; the body is then decoded per the hint. -/
def fetchAndParse (W : World) (opts : Opts) (u : String) (st : LoadState) :
    Except String Doc × LoadState :=
  let st1 := { st with fetchTrace := st.fetchTrace ++ [u] }
  if isFileHref u then
    match W.fetchFile u with
    | .error e => (.error e, st1)
    | .ok contents => (decodeContents W (W.mimeType u) contents, st1)
  else
    match W.fetchRemote (opts.httpMethod.getD "GET") u (buildRemoteHeaders opts) with
    | .error e => (.error e, st1)
    | .ok p => (decodeContents W p.1 p.2, st1)

/-- The scan phase and everything after it (lines 169–251), run once the
current Document sits in the Schema Map under `schemaID`: walk it rewriting
`$ref` url-parts to absolute hrefs, load the collected children, and — only
when `schemaID` is the root's href — run the transform pass before returning
the shared map. -/
def loadBody (W : World) (opts : Opts)
    (loadKids : List String → LoadState → Except String (List (String × Doc)) × LoadState)
    (schemaID : String) (isJSON : Bool) (st1 : LoadState) :
    Except String (List (String × Doc)) × LoadState :=
  match scanDoc W.url isJSON schemaID ((aget st1.schemas schemaID).getD .vnull) with
  | .error e => (.error e, st1)
  | .ok (d', children) =>
    let st2 := { st1 with schemas := aset st1.schemas schemaID d' }
    match loadKids children st2 with
    | (.error e, st3) => (.error e, st3)
    | (.ok _, st3) =>
      if schemaID == opts.rootHref then
        let m' := transformPass W.url opts.rootHref st3.schemas
        (.ok m', { st3 with schemas := m' })
      else (.ok st3.schemas, st3)

/-- A unit of work for the loader: one source, or the join over the child
Locations collected while scanning one document. -/
inductive Task where
  | one : Source → Task
  | kids : List String → Task

/-- `load` (lines 97–252) together with the `Promise.all` join over the
recursive child loads (lines 184–195), as one fuel-indexed function (the
Visited Set makes the JS recursion terminate; the fuel only makes that
termination explicit, and a fuel level is also spent per sibling). State is
passed explicitly for the in-place mutation of the shared `schemas` object
and `urlCache` set; a failure is returned as `.error` together with the
state as already mutated, matching the by-reference semantics of the JS
objects. The concurrent sibling loads are run in traversal order and the
first rejection aborts the join; each child's returned map is merged back
into the shared map by the `.then` callback. -/
def loadT (W : World) (opts : Opts) : Nat → Task → LoadState →
    Except String (List (String × Doc)) × LoadState
  | 0, _, st => (.error "out of fuel", st)
  | _ + 1, .kids [], st => (.ok st.schemas, st)
  | fuel + 1, .kids (c :: cs), st =>
    match loadT W opts fuel (.one (.url c)) st with
    | (.error e, st1) => (.error e, st1)
    | (.ok sub, st1) =>
      let st2 := { st1 with schemas := sub.foldl (fun m p => aset m p.1 p.2) st1.schemas }
      loadT W opts fuel (.kids cs) st2
  | fuel + 1, .one (.inline d), st =>
    -- scenario 1 (lines 109–111): store dynamic JSON, no cache check
    let st1 := { st with schemas := aset st.schemas VIRTUAL_JSON_URL d }
    loadBody W opts (fun cs => loadT W opts fuel (.kids cs)) VIRTUAL_JSON_URL true st1
  | fuel + 1, .one (.url u), st =>
    -- scenario 2 (lines 113–165)
    if st.urlCache.contains u then (.ok st.schemas, st)  -- early return, line 114
    else
      let st1 := { st with urlCache := st.urlCache ++ [u] }
      match fetchAndParse W opts u st1 with
      | (.error e, st2) => (.error e, st2)
      | (.ok d, st2) =>
        let st3 := { st2 with schemas := aset st2.schemas u d }
        loadBody W opts (fun cs => loadT W opts fuel (.kids cs)) u false st3

/-- The exported `load` entry point. -/
def load (W : World) (opts : Opts) (fuel : Nat) (src : Source) (st : LoadState) :
    Except String (List (String × Doc)) × LoadState :=
  loadT W opts fuel (.one src) st

/-! ### Spec-side definition for the header-coercion refinement -/

/-- The spec's words for one header value (§4.2): "passed through unchanged if
already a string, otherwise JSON-encoded; if JSON-encoding fails, that header
is dropped". -/
def coerceHVal : HVal → Option String
  | .str s => some s
  | .nonStr j => j

/-- The spec's description of the whole header pass: coerce each value in
order, dropping only the ones whose encoding fails. -/
def specCoerceHeaders (hs : List (String × HVal)) : List (String × String) :=
  hs.foldl (fun acc p =>
    match coerceHVal p.2 with
    | some v => asetS acc p.1 v
    | none => acc) []

/-! ### Offending references of a dynamic-JSON document

The url-parts that make the scan of an in-memory document throw on line 180:
non-empty and not `http://`/`https://`-absolute, in traversal order. -/

mutual

/-- The offending url-parts of a Document's `$ref` strings. -/
def badRefs : Doc → List String
  | .vnull => []
  | .vbool _ => []
  | .vnum _ => []
  | .vstr _ => []
  | .varr xs => badRefsL xs
  | .vobj kvs => badRefsO kvs

/-- `badRefs` over array elements. -/
def badRefsL : List Doc → List String
  | [] => []
  | x :: xs => badRefs x ++ badRefsL xs

/-- `badRefs` over object members. -/
def badRefsO : List (String × Doc) → List String
  | [] => []
  | (k, v) :: r =>
    (if k == "$ref" then
      match v with
      | .vstr s =>
          if (parseRef s).url ≠ "" && !isRemoteURL (parseRef s).url
          then [(parseRef s).url] else []
      | w => badRefs w
    else badRefs v) ++ badRefsO r

end

/-! ### Concrete fixtures used by witnesses and counterexamples -/

/-- A concrete URL oracle for closed statements: canonical hrefs are kept
as-is and a relative reference resolves under its base's directory. -/
def urlSimple : UrlModel :=
  ⟨fun s => s, fun base r => posixDirname base ++ "/" ++ r⟩

/-- A two-file world: a root `a.json` referencing `b.json`, both present. -/
def worldDemo : World := {
  url := urlSimple
  fetchFile := fun u =>
    if u == "file:///r/a.json" then .ok "A"
    else if u == "file:///r/b.json" then .ok "B"
    else .error ("ENOENT: " ++ u)
  mimeType := fun _ => ""
  fetchRemote := fun _ _ _ => .error "no network"
  parseJSON := fun s =>
    if s == "A" then
      .ok (.vobj [("x", .vobj [("$ref", .vstr "b.json#/components/schemas/Dog")])])
    else if s == "B" then
      .ok (.vobj [("components", .vobj [("$ref", .vstr "#/self")])])
    else .error "bad json"
  parseYAML := fun _ => .error "bad yaml" }

/-- Like `worldDemo` but `b.json` is missing, so the child fetch rejects. -/
def worldMissing : World :=
  { worldDemo with
    fetchFile := fun u =>
      if u == "file:///r/a.json" then .ok "A" else .error ("ENOENT: " ++ u) }

/-- A world whose decoders recognize fixed marker strings, for exercising the
content-type fallback: `"j"` is valid JSON only, `"y"` valid YAML only. -/
def worldFmt : World := {
  url := urlSimple
  fetchFile := fun _ => .error "unused"
  mimeType := fun _ => ""
  fetchRemote := fun _ _ _ => .error "unused"
  parseJSON := fun s => if s == "j" then .ok (.vstr "fromJSON") else .error "json bad"
  parseYAML := fun s => if s == "y" then .ok (.vstr "fromYAML") else .error "yaml bad" }

/-- Options with a local root `file:///r/a.json` and no fetch configuration. -/
def optsDemo : Opts := ⟨"file:///r/a.json", none, none, none⟩

/-- Options whose root is a remote URL, used for in-memory loads. -/
def optsRemoteRoot : Opts := ⟨"https://root.example/", none, none, none⟩

/-- The empty initial state of a fresh top-level load. -/
def st0 : LoadState := ⟨[], [], []⟩

/-- Options carrying an auth token and one custom non-string header. -/
def optsAuth : Opts :=
  ⟨"https://root.example/", some "tok", some [("X-Custom", .nonStr (some "1"))], none⟩

/-! ## Theorems -/

/-! ### Shared lemmas about the association-list operations -/

theorem mem_asetS {m : List (String × String)} {k v : String} {q : String × String} :
    q ∈ asetS m k v ↔ q = (k, v) ∨ (q ∈ m ∧ q.1 ≠ k) := by
  unfold asetS
  by_cases h : (m.any fun p => p.1 == k) = true
  · rw [if_pos h]
    simp only [List.mem_map]
    constructor
    · rintro ⟨p, hp, hfp⟩
      by_cases hk : (p.1 == k) = true
      · rw [if_pos hk] at hfp
        exact Or.inl hfp.symm
      · rw [if_neg hk] at hfp
        subst hfp
        exact Or.inr ⟨hp, by simpa using hk⟩
    · rintro (rfl | ⟨hq, hne⟩)
      · obtain ⟨p, hp, hpk⟩ := List.any_eq_true.mp h
        exact ⟨p, hp, by rw [if_pos hpk]⟩
      · exact ⟨q, hq, by rw [if_neg (by simpa using hne)]⟩
  · rw [if_neg h]
    simp only [List.mem_append, List.mem_singleton]
    constructor
    · rintro (hq | rfl)
      · exact Or.inr ⟨hq, fun hk => h (List.any_eq_true.mpr ⟨q, hq, by simpa using hk⟩)⟩
      · exact Or.inl rfl
    · rintro (rfl | ⟨hq, _⟩)
      · exact Or.inr rfl
      · exact Or.inl hq

theorem mem_foldl_asetS {l : List (String × String)} {m : List (String × String)}
    {q : String × String} (hq : q ∈ m) (hne : ∀ p ∈ l, p.1 ≠ q.1) :
    q ∈ l.foldl (fun acc p => asetS acc p.1 p.2) m := by
  induction l generalizing m with
  | nil => simpa using hq
  | cons p r ih =>
    simp only [List.foldl_cons]
    refine ih (mem_asetS.mpr (Or.inr ⟨hq, ?_⟩)) (fun p' hp' => hne p' (by simp [hp']))
    exact fun hk => hne p (by simp) (by rw [hk])

theorem key_absent_foldl_asetS {l : List (String × String)} {m : List (String × String)}
    {K : String} (hm : ∀ q ∈ m, q.1 ≠ K) (hl : ∀ p ∈ l, p.1 ≠ K) :
    ∀ q ∈ l.foldl (fun acc p => asetS acc p.1 p.2) m, q.1 ≠ K := by
  induction l generalizing m with
  | nil => simpa using hm
  | cons p r ih =>
    simp only [List.foldl_cons]
    refine ih (fun q hq => ?_) (fun p' hp' => hl p' (by simp [hp']))
    rcases mem_asetS.mp hq with rfl | ⟨hq', _⟩
    · exact hl p (by simp)
    · exact hm q hq'

/-- The accumulator loop of `parseHttpHeaders` is the spec's per-entry fold. -/
theorem parseHttpHeadersGo_eq_foldl (hs : List (String × HVal)) : ∀ acc,
    parseHttpHeadersGo acc hs =
      hs.foldl (fun acc p =>
        match coerceHVal p.2 with
        | some v => asetS acc p.1 v
        | none => acc) acc := by
  induction hs with
  | nil => intro acc; rfl
  | cons p r ih =>
    intro acc
    obtain ⟨k, v⟩ := p
    cases v with
    | str s => simp [parseHttpHeadersGo, coerceHVal, ih]
    | nonStr j => cases j <;> simp [parseHttpHeadersGo, coerceHVal, ih]

/-- C5. The claim as stated is false: it covers in-memory sources through the
Virtual identifier, but scenario 1 (lines 109–111) never consults the Visited
Set — an in-memory load whose Virtual identifier is already in the Visited Set
still stores the document, mutating the caller-visible Schema Map instead of
returning it unchanged. -/
theorem C5_counterexample :
    VIRTUAL_JSON_URL ∈ (⟨[], [VIRTUAL_JSON_URL], []⟩ : LoadState).urlCache ∧
    (load worldDemo optsRemoteRoot 3 (.inline (.vobj [("a", .vstr "x")]))
        ⟨[], [VIRTUAL_JSON_URL], []⟩).2.schemas.map (fun p => p.1) ≠
      (⟨[], [VIRTUAL_JSON_URL], []⟩ : LoadState).schemas.map (fun p => p.1) := by
  constructor
  · decide
  · decide

/-- C5 (amended): for a load call with a URL source whose Location identifier
is already in the Visited Set, the call returns the current Schema Map
unchanged — the whole state, including the fetch trace, is untouched, so no
fetch, parse or mutation happens; in-memory sources take scenario 1 and are
not short-circuited. -/
theorem C5_visited_short_circuit_url (W : World) (opts : Opts) (fuel : Nat)
    (st : LoadState) (u : String) (h : st.urlCache.contains u = true) :
    load W opts (fuel + 1) (.url u) st = (.ok st.schemas, st) := by
  have h' : u ∈ st.urlCache := by simpa using h
  simp [load, loadT, h']

/-- C5 witness: a concrete cached URL load returns the map unchanged. -/
theorem C5_witness :
    (⟨[("file:///r/a.json", .vnull)], ["file:///r/a.json"], []⟩ :
        LoadState).urlCache.contains "file:///r/a.json" = true ∧
    load worldDemo optsDemo 3 (.url "file:///r/a.json")
        ⟨[("file:///r/a.json", .vnull)], ["file:///r/a.json"], []⟩ =
      (.ok [("file:///r/a.json", .vnull)],
        ⟨[("file:///r/a.json", .vnull)], ["file:///r/a.json"], []⟩) :=
  ⟨by decide,
    C5_visited_short_circuit_url worldDemo optsDemo 2
      ⟨[("file:///r/a.json", .vnull)], ["file:///r/a.json"], []⟩
      "file:///r/a.json" (by decide)⟩

/-- C6. The claim as stated is false: a failing load does abort with the
error, but the shared `schemas` object and `urlCache` set are mutated in
place (lines 110/115/151), so after the abort the caller-visible collections
are not as they were before the load began — here the root entry and both
cache insertions survive the failed load. -/
theorem C6_counterexample :
    (load worldMissing optsDemo 3 (.url "file:///r/a.json") st0).1 =
      .error "ENOENT: file:///r/b.json" ∧
    (load worldMissing optsDemo 3 (.url "file:///r/a.json") st0).2.urlCache ≠
      st0.urlCache ∧
    (load worldMissing optsDemo 3 (.url "file:///r/a.json") st0).2.schemas.map
        (fun p => p.1) ≠ st0.schemas.map (fun p => p.1) := by
  refine ⟨rfl, by decide, by decide⟩

/-- C6 (amended): a fatal error aborts the entire load — the call's value is
the error, never a Schema Map — but the caller-supplied Schema Map and
Visited Set may retain partial state accumulated before the failure: for a
fetch failure on an uncached file Location, the cache insertion and the fetch
attempt already made remain in the caller-visible state. -/
theorem C6_abort_propagates_with_partial_state (W : World) (opts : Opts)
    (fuel : Nat) (st : LoadState) (u e : String)
    (hf : isFileHref u = true) (hc : st.urlCache.contains u = false)
    (he : W.fetchFile u = .error e) :
    load W opts (fuel + 1) (.url u) st =
      (.error e,
        { st with urlCache := st.urlCache ++ [u],
                  fetchTrace := st.fetchTrace ++ [u] }) := by
  have hc' : u ∉ st.urlCache := by simpa using hc
  simp [load, loadT, hc', fetchAndParse, hf, he]

/-- C6 witness: the missing-file world aborts with the fetch error while the
cache and trace keep the attempted Location. -/
theorem C6_witness :
    isFileHref "file:///r/b.json" = true ∧
    st0.urlCache.contains "file:///r/b.json" = false ∧
    worldMissing.fetchFile "file:///r/b.json" = .error "ENOENT: file:///r/b.json" ∧
    load worldMissing optsDemo 3 (.url "file:///r/b.json") st0 =
      (.error "ENOENT: file:///r/b.json",
        ⟨[], ["file:///r/b.json"], ["file:///r/b.json"]⟩) :=
  ⟨by decide, by decide, by rfl,
    C6_abort_propagates_with_partial_state worldMissing optsDemo 2 st0
      "file:///r/b.json" "ENOENT: file:///r/b.json" (by decide) (by decide) (by rfl)⟩

/-- C7. When the content-type hint is none of the five recognized values, the
decoder tries JSON first, then YAML, and only when both throw does it fail,
with the UnknownFormat message that names the hint whenever one is present. -/
theorem C7_format_fallback (W : World) (ct s : String)
    (h1 : ct ≠ "application/openapi+yaml") (h2 : ct ≠ "text/yaml")
    (h3 : ct ≠ "application/json") (h4 : ct ≠ "application/json5")
    (h5 : ct ≠ "application/openapi+json") :
    (∀ d, W.parseJSON s = .ok d → decodeContents W ct s = .ok d) ∧
    (∀ e d, W.parseJSON s = .error e → W.parseYAML s = .ok d →
      decodeContents W ct s = .ok d) ∧
    (∀ e1 e2, W.parseJSON s = .error e1 → W.parseYAML s = .error e2 →
      decodeContents W ct s = .error (unknownFormatMsg ct)) ∧
    (ct ≠ "" →
      unknownFormatMsg ct =
        "Unknown format" ++ (": \"" ++ ct ++ "\"") ++ ". Only YAML or JSON supported.") := by
  refine ⟨?_, ?_, ?_, ?_⟩
  · intro d hd
    simp [decodeContents, parseSchema, h1, h2, h3, h4, h5, hd]
  · intro e d he hd
    simp [decodeContents, parseSchema, h1, h2, h3, h4, h5, he, hd]
  · intro e1 e2 he1 he2
    simp [decodeContents, parseSchema, h1, h2, h3, h4, h5, he1, he2]
  · intro hne
    unfold unknownFormatMsg
    rw [if_pos hne]

/-- C7 witness: with an unrecognized hint, JSON-only content decodes as JSON,
YAML-only content decodes as YAML, and undecodable content fails with the
hint-carrying UnknownFormat message. -/
theorem C7_witness :
    ("text/plain" : String) ≠ "application/json" ∧
    decodeContents worldFmt "text/plain" "j" = .ok (.vstr "fromJSON") ∧
    decodeContents worldFmt "text/plain" "y" = .ok (.vstr "fromYAML") ∧
    decodeContents worldFmt "text/plain" "zz" =
      .error "Unknown format: \"text/plain\". Only YAML or JSON supported." := by
  have hj := C7_format_fallback worldFmt "text/plain" "j"
    (by decide) (by decide) (by decide) (by decide) (by decide)
  have hy := C7_format_fallback worldFmt "text/plain" "y"
    (by decide) (by decide) (by decide) (by decide) (by decide)
  have hz := C7_format_fallback worldFmt "text/plain" "zz"
    (by decide) (by decide) (by decide) (by decide) (by decide)
  refine ⟨by decide, hj.1 _ rfl, hy.2.1 "json bad" _ rfl rfl, ?_⟩
  have h3 := hz.2.2.1 "json bad" "yaml bad" rfl rfl
  rw [h3]
  rfl

/-- C9. Header-value coercion refines the spec's description: a string value
passes through unchanged, a non-string value is JSON-encoded, a value whose
encoding throws is dropped while the remaining headers are still processed,
and the function is total — coercion is never fatal to the load. -/
theorem C9_header_coercion :
    (∀ hs, parseHttpHeaders hs = specCoerceHeaders hs) ∧
    (∀ acc k s r,
      parseHttpHeadersGo acc ((k, .str s) :: r) = parseHttpHeadersGo (asetS acc k s) r) ∧
    (∀ acc k j r,
      parseHttpHeadersGo acc ((k, .nonStr (some j)) :: r) =
        parseHttpHeadersGo (asetS acc k j) r) ∧
    (∀ acc k r,
      parseHttpHeadersGo acc ((k, .nonStr none) :: r) = parseHttpHeadersGo acc r) := by
  refine ⟨fun hs => parseHttpHeadersGo_eq_foldl hs [], ?_, ?_, ?_⟩ <;>
    intros <;> rfl

/-- C10. With the `auth` option set, the assembled request headers carry the
token under the misspelled literal key `Authorizaton` (line 130), and no
header named `Authorization` is ever produced unless the caller's custom
`httpHeaders` themselves contain one. -/
theorem C10_auth_header_misspelled (opts : Opts) (t : String)
    (ha : opts.auth = some t)
    (hmiss : ∀ l, opts.httpHeaders = some l →
      ∀ p ∈ parseHttpHeaders l, p.1 ≠ "Authorizaton")
    (hauth : ∀ l, opts.httpHeaders = some l →
      ∀ p ∈ parseHttpHeaders l, p.1 ≠ "Authorization") :
    ("Authorizaton", t) ∈ buildRemoteHeaders opts ∧
    ∀ q ∈ buildRemoteHeaders opts, q.1 ≠ "Authorization" := by
  unfold buildRemoteHeaders
  rw [ha]
  have hbase : ("Authorizaton", t) ∈ asetS [("User-Agent", "openapi-typescript")]
      "Authorizaton" t :=
    mem_asetS.mpr (Or.inl rfl)
  have hbaseKeys : ∀ q ∈ asetS [("User-Agent", "openapi-typescript")] "Authorizaton" t,
      q.1 ≠ "Authorization" := by
    intro q hq
    rcases mem_asetS.mp hq with rfl | ⟨hq', _⟩
    · show ("Authorizaton" : String) ≠ "Authorization"
      decide
    · simp only [List.mem_singleton] at hq'
      subst hq'
      decide
  cases hh : opts.httpHeaders with
  | none => exact ⟨hbase, hbaseKeys⟩
  | some l =>
    refine ⟨mem_foldl_asetS hbase (fun p hp => hmiss l hh p hp), ?_⟩
    exact key_absent_foldl_asetS hbaseKeys (fun p hp => hauth l hh p hp)

/-- C10 witness: concrete options with an auth token and one custom header
produce the misspelled auth header and no `Authorization` header. -/
theorem C10_witness :
    optsAuth.auth = some "tok" ∧
    ("Authorizaton", "tok") ∈ buildRemoteHeaders optsAuth ∧
    ∀ q ∈ buildRemoteHeaders optsAuth, q.1 ≠ "Authorization" := by
  have h := C10_auth_header_misspelled optsAuth "tok" rfl
    (by intro l hl p hp
        cases Option.some.inj hl
        rw [show parseHttpHeaders [("X-Custom", HVal.nonStr (some "1"))] =
          [("X-Custom", "1")] from rfl] at hp
        simp only [List.mem_singleton] at hp
        subst hp
        decide)
    (by intro l hl p hp
        cases Option.some.inj hl
        rw [show parseHttpHeaders [("X-Custom", HVal.nonStr (some "1"))] =
          [("X-Custom", "1")] from rfl] at hp
        simp only [List.mem_singleton] at hp
        subst hp
        decide)
  exact ⟨rfl, h.1, h.2⟩

/-- C1. In the root-only transform pass, a pointer whose url-part is present
and whose absolute URL differs from the root Location is rewritten to
`external[<id>][<part1>][<part2>]…` with the Parts in order, where `<id>` is
the url-part relativized against the root's directory when both are `file:`
Locations and the absolute URL otherwise. -/
theorem C1_external_ref_transform (W : UrlModel) (root sub v : String)
    (hh : hasHash v = true)
    (hu : (parseRef v).url ≠ "")
    (hne : W.urlHref (parseRef v).url ≠ root) :
    transformRef W root sub v = externRef (relId root (parseRef v).url) (parseRef v).parts := by
  simp [transformRef, hh, hu, hne]

/-- C1 witness: the spec's own example — a root `a.json` referencing
`./b.json#/components/schemas/Dog` (already made absolute by the scan phase)
emits `external["b.json"]["components"]["schemas"]["Dog"]`. -/
theorem C1_witness :
    hasHash "file:///dir/b.json#/components/schemas/Dog" = true ∧
    (parseRef "file:///dir/b.json#/components/schemas/Dog").url ≠ "" ∧
    urlSimple.urlHref (parseRef "file:///dir/b.json#/components/schemas/Dog").url ≠
      "file:///dir/a.json" ∧
    transformRef urlSimple "file:///dir/a.json" "file:///dir/a.json"
        "file:///dir/b.json#/components/schemas/Dog" =
      "external[\"b.json\"][\"components\"][\"schemas\"][\"Dog\"]" :=
  ⟨by decide, by decide, by decide,
    (C1_external_ref_transform urlSimple "file:///dir/a.json" "file:///dir/a.json"
      "file:///dir/b.json#/components/schemas/Dog"
      (by decide) (by decide) (by decide)).trans (by decide)⟩

/-- C4. The claim as stated is false: the `properties` collapse (lines
227–229) runs only after the two external scenarios have returned, so an
external pointer whose second-to-last Part is `properties` keeps that
segment in the emitted `external[…]` wrapper. -/
theorem C4_counterexample :
    (parseRef "file:///b.json#/components/schemas/Pet/properties/name").parts.getD
        ((parseRef "file:///b.json#/components/schemas/Pet/properties/name").parts.length - 2)
        "" = "properties" ∧
    transformRef urlSimple "file:///a.json" "file:///a.json"
        "file:///b.json#/components/schemas/Pet/properties/name" =
      "external[\"b.json\"][\"components\"][\"schemas\"][\"Pet\"][\"properties\"][\"name\"]" ∧
    transformRef urlSimple "file:///a.json" "file:///a.json"
        "file:///b.json#/components/schemas/Pet/properties/name" ≠
      "external[\"b.json\"][\"components\"][\"schemas\"][\"Pet\"][\"name\"]" :=
  ⟨by decide, by decide, by decide⟩

/-- C4 (amended): the collapse applies exactly to the root-internal pointers —
those whose url-part is empty and which reside in the root document, or whose
url-part resolves to the root Location — and there a second-to-last Part equal
to `properties` is dropped before emitting. -/
theorem C4_properties_collapse_root_internal (W : UrlModel) (root sub v : String)
    (hh : hasHash v = true)
    (hempty : (parseRef v).url = "" → sub = root)
    (hroot : (parseRef v).url ≠ "" → W.urlHref (parseRef v).url = root)
    (hp2 : 2 ≤ (parseRef v).parts.length)
    (hp : (parseRef v).parts.getD ((parseRef v).parts.length - 2) "" = "properties") :
    transformRef W root sub v =
      rootRef ((parseRef v).parts.take ((parseRef v).parts.length - 2) ++
        (parseRef v).parts.drop ((parseRef v).parts.length - 1)) := by
  have hp' : (parseRef v).parts[(parseRef v).parts.length - 2]?.getD "" = "properties" := by
    simpa [List.getD] using hp
  by_cases hu : (parseRef v).url = ""
  · have hs := hempty hu
    simp [transformRef, hh, hu, hs, collapseProps, hp2, hp']
  · have hr := hroot hu
    simp [transformRef, hh, hu, hr, collapseProps, hp2, hp']

/-- C4 witness: the spec's root-resident example
`#/components/schemas/Pet/properties/name` emits
`components["schemas"]["Pet"]["name"]`. -/
theorem C4_witness :
    hasHash "#/components/schemas/Pet/properties/name" = true ∧
    (parseRef "#/components/schemas/Pet/properties/name").url = "" ∧
    (parseRef "#/components/schemas/Pet/properties/name").parts.getD
        ((parseRef "#/components/schemas/Pet/properties/name").parts.length - 2) ""
      = "properties" ∧
    transformRef urlSimple "file:///a.json" "file:///a.json"
        "#/components/schemas/Pet/properties/name" =
      "components[\"schemas\"][\"Pet\"][\"name\"]" :=
  ⟨by decide, by decide, by decide,
    (C4_properties_collapse_root_internal urlSimple "file:///a.json" "file:///a.json"
      "#/components/schemas/Pet/properties/name"
      (by decide) (fun _ => rfl) (fun h => absurd (by decide) h)
      (by decide) (by decide)).trans (by decide)⟩

/-! ### Lookup lemmas for the Schema Map operations -/

theorem aget_nil (k : String) : aget [] k = none := rfl

theorem aget_cons (p : String × Doc) (r : List (String × Doc)) (k : String) :
    aget (p :: r) k = if (p.1 == k) = true then some p.2 else aget r k := by
  by_cases hp : (p.1 == k) = true
  · simp [aget, List.find?, hp]
  · simp [aget, List.find?, hp]

theorem aget_map_overwrite (m : List (String × Doc)) (k : String) (v : Doc)
    (h : (m.any fun p => p.1 == k) = true) :
    aget (m.map fun p => if p.1 == k then (k, v) else p) k = some v := by
  induction m with
  | nil => simp at h
  | cons p r ih =>
    by_cases hp : (p.1 == k) = true
    · rw [List.map_cons, if_pos hp, aget_cons]
      simp
    · rw [List.map_cons, if_neg hp, aget_cons, if_neg (by simpa using hp)]
      exact ih (by simpa [List.any_cons, hp] using h)

theorem aget_map_ne (m : List (String × Doc)) (k : String) (v : Doc) (k' : String)
    (h : k' ≠ k) :
    aget (m.map fun p => if p.1 == k then (k, v) else p) k' = aget m k' := by
  induction m with
  | nil => rfl
  | cons p r ih =>
    by_cases hp : (p.1 == k) = true
    · have hpk : p.1 = k := by simpa using hp
      rw [List.map_cons, if_pos hp, aget_cons, aget_cons,
        if_neg (show ¬((k, v).1 == k') = true by simpa using fun hk => h hk.symm),
        if_neg (show ¬(p.1 == k') = true by
          simp [hpk]; exact fun hk => h hk.symm)]
      exact ih
    · rw [List.map_cons, if_neg hp, aget_cons, aget_cons]
      by_cases hq : (p.1 == k') = true
      · rw [if_pos hq, if_pos hq]
      · rw [if_neg hq, if_neg hq]
        exact ih

theorem aget_append_single_self (m : List (String × Doc)) (k : String) (v : Doc)
    (hm : ∀ p ∈ m, (p.1 == k) = false) :
    aget (m ++ [(k, v)]) k = some v := by
  induction m with
  | nil => simp [aget_cons]
  | cons p r ih =>
    rw [List.cons_append, aget_cons, if_neg (by simp [hm p (by simp)])]
    exact ih (fun q hq => hm q (by simp [hq]))

theorem aget_append_single_ne (m : List (String × Doc)) (k : String) (v : Doc)
    (k' : String) (h : k' ≠ k) :
    aget (m ++ [(k, v)]) k' = aget m k' := by
  induction m with
  | nil =>
    rw [List.nil_append, aget_cons,
      if_neg (show ¬((k, v).1 == k') = true by simpa using fun hk => h hk.symm)]
  | cons p r ih =>
    rw [List.cons_append, aget_cons, aget_cons]
    by_cases hq : (p.1 == k') = true
    · rw [if_pos hq, if_pos hq]
    · rw [if_neg hq, if_neg hq]
      exact ih

/-- `obj[k] = v` makes `obj[k]` read back `v`. -/
theorem aget_aset_self (m : List (String × Doc)) (k : String) (v : Doc) :
    aget (aset m k v) k = some v := by
  unfold aset
  by_cases h : (m.any fun p => p.1 == k) = true
  · rw [if_pos h]
    exact aget_map_overwrite m k v h
  · rw [if_neg h]
    refine aget_append_single_self m k v (fun p hp => ?_)
    by_cases hp' : (p.1 == k) = true
    · exact absurd (List.any_eq_true.mpr ⟨p, hp, hp'⟩) h
    · simpa using hp'

/-- `obj[k] = v` leaves every other key's lookup unchanged. -/
theorem aget_aset_ne (m : List (String × Doc)) (k : String) (v : Doc) (k' : String)
    (h : k' ≠ k) :
    aget (aset m k v) k' = aget m k' := by
  unfold aset
  by_cases hAny : (m.any fun p => p.1 == k) = true
  · rw [if_pos hAny]
    exact aget_map_ne m k v k' h
  · rw [if_neg hAny]
    exact aget_append_single_ne m k v k' h

/-- `delete obj[k]` makes `obj[k]` read back nothing. -/
theorem aget_adel_self (m : List (String × Doc)) (k : String) :
    aget (adel m k) k = none := by
  unfold adel
  induction m with
  | nil => rfl
  | cons p r ih =>
    by_cases hp : p.1 = k
    · rw [List.filter_cons_of_neg (by simpa using hp)]
      exact ih
    · rw [List.filter_cons_of_pos (by simpa using hp), aget_cons,
        if_neg (by simpa using hp)]
      exact ih

/-- `delete obj[k]` leaves every other key's lookup unchanged. -/
theorem aget_adel_ne (m : List (String × Doc)) (k k' : String) (h : k' ≠ k) :
    aget (adel m k) k' = aget m k' := by
  unfold adel
  induction m with
  | nil => rfl
  | cons p r ih =>
    by_cases hp : p.1 = k
    · rw [List.filter_cons_of_neg (by simpa using hp), aget_cons,
        if_neg (show ¬(p.1 == k') = true by
          simp [hp]; exact fun hk => h hk.symm)]
      exact ih
    · rw [List.filter_cons_of_pos (by simpa using hp), aget_cons, aget_cons]
      by_cases hq : (p.1 == k') = true
      · rw [if_pos hq, if_pos hq]
      · rw [if_neg hq, if_neg hq]
        exact ih

/-! ### String-decomposition lemmas for the scan-phase rewrite -/

theorem breakAtHash_nomem (a b : List Char) (ha : '#' ∉ a) :
    breakAtHash (a ++ '#' :: b) = some (a, b) := by
  induction a with
  | nil => simp [breakAtHash]
  | cons c cs ih =>
    have ha' : '#' ∉ cs := fun h => ha (List.mem_cons_of_mem _ h)
    have hc : (c == '#') = false := by
      refine beq_eq_false_iff_ne.mpr ?_
      rintro rfl
      exact ha (List.mem_cons_self _ _)
    simp [breakAtHash, hc, ih ha']

theorem breakAtHash_decomp : ∀ (cs a b : List Char), breakAtHash cs = some (a, b) →
    cs = a ++ '#' :: b ∧ '#' ∉ a := by
  intro cs
  induction cs with
  | nil => intro a b h; simp [breakAtHash] at h
  | cons c cs ih =>
    intro a b h
    by_cases hc : (c == '#') = true
    · have hc' : c = '#' := by simpa using hc
      subst hc'
      simp [breakAtHash] at h
      obtain ⟨rfl, rfl⟩ := h
      simp
    · rw [breakAtHash, if_neg hc] at h
      cases hb : breakAtHash cs with
      | none => rw [hb] at h; exact absurd h (by simp)
      | some p =>
        obtain ⟨x, y⟩ := p
        rw [hb] at h
        simp only [Option.some.injEq, Prod.mk.injEq] at h
        obtain ⟨h1, h2⟩ := h
        subst h1
        subst h2
        obtain ⟨hcs, hx⟩ := ih x y hb
        subst hcs
        refine ⟨by simp, ?_⟩
        intro hmem
        rcases List.mem_cons.mp hmem with hch | hch
        · exact absurd (beq_iff_eq.mpr hch.symm) (by simpa using hc)
        · exact hx hch

theorem nomem_of_breakAtHash_none : ∀ cs : List Char, breakAtHash cs = none → '#' ∉ cs := by
  intro cs
  induction cs with
  | nil => intro _ hm; simp at hm
  | cons c r ih =>
    intro h hm
    by_cases hc : (c == '#') = true
    · rw [breakAtHash, if_pos hc] at h
      exact absurd h (by simp)
    · rw [breakAtHash, if_neg hc] at h
      cases hb : breakAtHash r with
      | none =>
        rcases List.mem_cons.mp hm with hch | hch
        · exact absurd (beq_iff_eq.mpr hch.symm) (by simpa using hc)
        · exact ih hb hch
      | some p =>
        obtain ⟨x, y⟩ := p
        rw [hb] at h
        exact absurd h (by simp)

theorem isPre_append (a b : List Char) : isPre a (a ++ b) = true := by
  induction a with
  | nil => rfl
  | cons c cs ih => simp [isPre, ih]

theorem replFirst_of_isPre (pat rep s : List Char) (h : isPre pat s = true) :
    replFirst pat rep s = rep ++ s.drop pat.length := by
  cases s with
  | nil =>
    cases pat with
    | nil => simp [replFirst]
    | cons c cs => simp [isPre] at h
  | cons c cs => simp only [replFirst, h, if_pos]

/-- A pointer with a fragment splits as `url ++ "#" ++ afterHash`, with no `#`
inside the url-part, and its Parts are computed from the fragment. -/
theorem parseRef_decomp (v : String) (h : hasHash v = true) :
    v.data = (parseRef v).url.data ++ '#' :: (afterHash v).data ∧
    '#' ∉ (parseRef v).url.data ∧
    (parseRef v).parts = (splitSlash (afterHash v)).filter (fun s => s ≠ "") := by
  unfold parseRef afterHash
  cases hb : breakAtHash v.data with
  | none =>
    have hmem : '#' ∈ v.data := by simpa [hasHash] using h
    exact absurd hmem (nomem_of_breakAtHash_none v.data hb)
  | some p =>
    obtain ⟨a, b⟩ := p
    obtain ⟨hcs, hx⟩ := breakAtHash_decomp v.data a b hb
    exact ⟨by simpa using hcs, by simpa using hx, rfl⟩

/-- C3. During the scan of one document: a `$ref` with an empty url-part is
left untouched; one with a non-empty url-part (when the dynamic-JSON guard
does not fire) is rewritten so that its url-part becomes the child Location's
canonical absolute string while its path Parts are unchanged; and a
successful URL load stores the rewritten clone back into the Schema Map under
the current document's key. -/
theorem C3_scan_rewrite :
    (∀ (W : UrlModel) (isJSON : Bool) (base v : String),
      (parseRef v).url = "" → scanRefStr W isJSON base v = .ok (v, [])) ∧
    (∀ (W : UrlModel) (isJSON : Bool) (base v : String),
      (parseRef v).url ≠ "" → hasHash v = true →
      (isJSON = false ∨ isRemoteURL (parseRef v).url = true) →
      scanRefStr W isJSON base v =
        .ok (resolveChild W base (parseRef v).url ++ "#" ++ afterHash v,
          [resolveChild W base (parseRef v).url]) ∧
      ('#' ∉ (resolveChild W base (parseRef v).url).data →
        parseRef (resolveChild W base (parseRef v).url ++ "#" ++ afterHash v) =
          ⟨resolveChild W base (parseRef v).url, (parseRef v).parts⟩)) ∧
    (∀ (W : World) (opts : Opts) (fuel : Nat) (st : LoadState) (u contents : String)
      (d d' : Doc),
      st.urlCache.contains u = false →
      isFileHref u = true →
      W.fetchFile u = .ok contents →
      decodeContents W (W.mimeType u) contents = .ok d →
      scanDoc W.url false u d = .ok (d', []) →
      (u == opts.rootHref) = false →
      load W opts (fuel + 2) (.url u) st =
        (.ok (aset (aset st.schemas u d) u d'),
          ⟨aset (aset st.schemas u d) u d', st.urlCache ++ [u], st.fetchTrace ++ [u]⟩)) := by
  refine ⟨?_, ?_, ?_⟩
  · intro W isJSON base v he
    simp [scanRefStr, he]
  · intro W isJSON base v hu hh hguard
    have hg : (isJSON && !isRemoteURL (parseRef v).url) = false := by
      rcases hguard with h | h <;> simp [h]
    have hbeq : ((parseRef v).url == "") = false := beq_eq_false_iff_ne.mpr hu
    obtain ⟨hd, hnm, hparts⟩ := parseRef_decomp v hh
    constructor
    · rw [scanRefStr]
      simp only [hbeq, Bool.false_eq_true, if_false, hg]
      refine congrArg _ (congrArg (fun s => (s, _)) ?_)
      apply String.ext
      show (replFirst (parseRef v).url.data (resolveChild W base (parseRef v).url).data
        v.data) = _
      rw [hd, replFirst_of_isPre _ _ _ (isPre_append _ _), List.drop_left]
      simp [show ("#" : String).data = ['#'] from rfl]
    · intro hn
      rw [parseRef]
      have hdata : (resolveChild W base (parseRef v).url ++ "#" ++ afterHash v).data =
          (resolveChild W base (parseRef v).url).data ++ '#' :: (afterHash v).data := by
        simp [show ("#" : String).data = ['#'] from rfl]
      rw [hdata, breakAtHash_nomem _ _ hn, hparts]
  · intro W opts fuel st u contents d d' hc hf hread hdec hscan hroot
    have hc' : u ∉ st.urlCache := by simpa using hc
    have hg : aget (aset st.schemas u d) u = some d := aget_aset_self _ _ _
    simp [load, loadT, hc', fetchAndParse, hf, hread, hdec, loadBody, hg, hscan, hroot]

/-- C3 witness: `b.json#/components/schemas/Dog` scanned inside
`file:///r/a.json` has its url-part rewritten to the child's absolute href
with the Parts untouched. -/
theorem C3_witness :
    (parseRef "b.json#/components/schemas/Dog").url ≠ "" ∧
    scanRefStr urlSimple false "file:///r/a.json" "b.json#/components/schemas/Dog" =
      .ok ("file:///r/b.json#/components/schemas/Dog", ["file:///r/b.json"]) ∧
    parseRef "file:///r/b.json#/components/schemas/Dog" =
      ⟨"file:///r/b.json", (parseRef "b.json#/components/schemas/Dog").parts⟩ := by
  have h := C3_scan_rewrite.2.1 urlSimple false "file:///r/a.json"
    "b.json#/components/schemas/Dog" (by decide) (by decide) (Or.inl rfl)
  have h2 := h.2 (by decide)
  refine ⟨by decide, h.1.trans (by rfl), ?_⟩
  calc parseRef "file:///r/b.json#/components/schemas/Dog"
      = parseRef (resolveChild urlSimple "file:///r/a.json"
          (parseRef "b.json#/components/schemas/Dog").url ++ "#" ++
          afterHash "b.json#/components/schemas/Dog") := by
        rw [show resolveChild urlSimple "file:///r/a.json"
            (parseRef "b.json#/components/schemas/Dog").url ++ "#" ++
            afterHash "b.json#/components/schemas/Dog" =
          "file:///r/b.json#/components/schemas/Dog" from by decide]
    _ = ⟨resolveChild urlSimple "file:///r/a.json"
          (parseRef "b.json#/components/schemas/Dog").url,
          (parseRef "b.json#/components/schemas/Dog").parts⟩ := h2
    _ = ⟨"file:///r/b.json", (parseRef "b.json#/components/schemas/Dog").parts⟩ := by
        rw [show resolveChild urlSimple "file:///r/a.json"
            (parseRef "b.json#/components/schemas/Dog").url =
          "file:///r/b.json" from by decide]

/-! ### Dynamic-JSON scan lemmas -/

@[simp] theorem except_bind_ok {α β γ : Type} (a : α) (f : α → Except γ β) :
    ((Except.ok a : Except γ α) >>= f) = f a := rfl

@[simp] theorem except_bind_err {α β γ : Type} (e : γ) (f : α → Except γ β) :
    ((Except.error e : Except γ α) >>= f) = .error e := rfl

theorem scanRefStr_dyn_err (W : UrlModel) (base s : String)
    (h : ((parseRef s).url ≠ "" && !isRemoteURL (parseRef s).url) = true) :
    scanRefStr W true base s = .error (dynJsonErr (parseRef s).url) := by
  have h' := h
  rw [Bool.and_eq_true] at h'
  have h1 : (parseRef s).url ≠ "" := by simpa using h'.1
  have h2 : isRemoteURL (parseRef s).url = false := by simpa using h'.2
  simp [scanRefStr, beq_eq_false_iff_ne.mpr h1, h2]

theorem scanRefStr_dyn_ok (W : UrlModel) (base s : String)
    (h : ((parseRef s).url ≠ "" && !isRemoteURL (parseRef s).url) = false) :
    ∃ p, scanRefStr W true base s = .ok p := by
  by_cases hu : (parseRef s).url = ""
  · exact ⟨(s, []), by simp [scanRefStr, hu]⟩
  · have hrem : isRemoteURL (parseRef s).url = true := by
      rcases Bool.and_eq_false_iff.mp h with h' | h'
      · exact absurd (by simpa using h') hu
      · simpa using h'
    refine ⟨(strReplaceFirst s (parseRef s).url (resolveChild W base (parseRef s).url),
      [resolveChild W base (parseRef s).url]), ?_⟩
    simp [scanRefStr, beq_eq_false_iff_ne.mpr hu, hrem]

mutual

/-- Scanning a dynamic-JSON document succeeds when it holds no offending
reference and fails with the line-180 error of its first offending
reference otherwise. -/
theorem scanDoc_dyn (W : UrlModel) (base : String) :
    ∀ d : Doc,
      (badRefs d = [] → ∃ p, scanDoc W true base d = .ok p) ∧
      (∀ u, (badRefs d).head? = some u → scanDoc W true base d = .error (dynJsonErr u))
  | .vnull => ⟨fun _ => ⟨(.vnull, []), rfl⟩, fun u h => by simp [badRefs] at h⟩
  | .vbool b => ⟨fun _ => ⟨(.vbool b, []), rfl⟩, fun u h => by simp [badRefs] at h⟩
  | .vnum n => ⟨fun _ => ⟨(.vnum n, []), rfl⟩, fun u h => by simp [badRefs] at h⟩
  | .vstr s => ⟨fun _ => ⟨(.vstr s, []), rfl⟩, fun u h => by simp [badRefs] at h⟩
  | .varr xs => by
    obtain ⟨hok, herr⟩ := scanDocL_dyn W base xs
    constructor
    · intro h
      obtain ⟨p, hp⟩ := hok (by simpa [badRefs] using h)
      exact ⟨(.varr p.1, p.2), by simp [scanDoc, hp]⟩
    · intro u h
      have hx := herr u (by simpa [badRefs] using h)
      simp [scanDoc, hx]
  | .vobj kvs => by
    obtain ⟨hok, herr⟩ := scanDocO_dyn W base kvs
    constructor
    · intro h
      obtain ⟨p, hp⟩ := hok (by simpa [badRefs] using h)
      exact ⟨(.vobj p.1, p.2), by simp [scanDoc, hp]⟩
    · intro u h
      have hx := herr u (by simpa [badRefs] using h)
      simp [scanDoc, hx]
termination_by d => sizeOf d

/-- `scanDoc_dyn` over array elements. -/
theorem scanDocL_dyn (W : UrlModel) (base : String) :
    ∀ xs : List Doc,
      (badRefsL xs = [] → ∃ p, scanDocL W true base xs = .ok p) ∧
      (∀ u, (badRefsL xs).head? = some u →
        scanDocL W true base xs = .error (dynJsonErr u))
  | [] => ⟨fun _ => ⟨([], []), rfl⟩, fun u h => by simp [badRefsL] at h⟩
  | x :: xs => by
    obtain ⟨hxok, hxerr⟩ := scanDoc_dyn W base x
    obtain ⟨hsok, hserr⟩ := scanDocL_dyn W base xs
    constructor
    · intro h
      rw [badRefsL, List.append_eq_nil] at h
      obtain ⟨p, hp⟩ := hxok h.1
      obtain ⟨q, hq⟩ := hsok h.2
      exact ⟨(p.1 :: q.1, p.2 ++ q.2), by simp [scanDocL, hp, hq]⟩
    · intro u h
      rw [badRefsL] at h
      cases hbx : badRefs x with
      | nil =>
        obtain ⟨p, hp⟩ := hxok hbx
        have ht := hserr u (by simpa [hbx] using h)
        simp [scanDocL, hp, ht]
      | cons b bs =>
        have hbu : (badRefs x).head? = some u := by
          rw [hbx] at h ⊢
          simpa using h
        have hx := hxerr u hbu
        simp [scanDocL, hx]
termination_by xs => sizeOf xs

/-- `scanDoc_dyn` over object members. -/
theorem scanDocO_dyn (W : UrlModel) (base : String) :
    ∀ kvs : List (String × Doc),
      (badRefsO kvs = [] → ∃ p, scanDocO W true base kvs = .ok p) ∧
      (∀ u, (badRefsO kvs).head? = some u →
        scanDocO W true base kvs = .error (dynJsonErr u))
  | [] => ⟨fun _ => ⟨([], []), rfl⟩, fun u h => by simp [badRefsO] at h⟩
  | (k, v) :: r => by
    obtain ⟨hsok, hserr⟩ := scanDocO_dyn W base r
    obtain ⟨hvok, hverr⟩ := scanDoc_dyn W base v
    by_cases hk : (k == "$ref") = true
    · cases v with
      | vstr s =>
        constructor
        · intro h
          simp only [badRefsO, hk, if_true, List.append_eq_nil] at h
          have hbad : ((parseRef s).url ≠ "" && !isRemoteURL (parseRef s).url) = false := by
            by_cases hc : ((parseRef s).url ≠ "" && !isRemoteURL (parseRef s).url) = true
            · rw [if_pos hc] at h
              exact absurd h.1 (by simp)
            · exact Bool.eq_false_iff.mpr hc
          obtain ⟨p, hp⟩ := scanRefStr_dyn_ok W base s hbad
          obtain ⟨q, hq⟩ := hsok h.2
          exact ⟨((k, .vstr p.1) :: q.1, p.2 ++ q.2), by simp [scanDocO, hk, hp, hq]⟩
        · intro u h
          simp only [badRefsO, hk, if_true] at h
          by_cases hbad : ((parseRef s).url ≠ "" && !isRemoteURL (parseRef s).url) = true
          · rw [if_pos hbad] at h
            have hu : (parseRef s).url = u := by simpa using h
            have hx := scanRefStr_dyn_err W base s hbad
            rw [hu] at hx
            simp [scanDocO, hk, hx]
          · rw [if_neg hbad] at h
            simp only [List.nil_append] at h
            have ht := hserr u h
            have hbad' : ((parseRef s).url ≠ "" && !isRemoteURL (parseRef s).url) = false :=
              Bool.eq_false_iff.mpr hbad
            obtain ⟨p, hp⟩ := scanRefStr_dyn_ok W base s hbad'
            simp [scanDocO, hk, hp, ht]
      | vnull =>
        constructor
        · intro h
          simp only [badRefsO, hk, if_true, badRefs, List.nil_append] at h
          obtain ⟨q, hq⟩ := hsok h
          exact ⟨((k, .vnull) :: q.1, q.2), by simp [scanDocO, hk, scanDoc, hq]⟩
        · intro u h
          simp only [badRefsO, hk, if_true, badRefs, List.nil_append] at h
          have ht := hserr u h
          simp [scanDocO, hk, scanDoc, ht]
      | vbool b =>
        constructor
        · intro h
          simp only [badRefsO, hk, if_true, badRefs, List.nil_append] at h
          obtain ⟨q, hq⟩ := hsok h
          exact ⟨((k, .vbool b) :: q.1, q.2), by simp [scanDocO, hk, scanDoc, hq]⟩
        · intro u h
          simp only [badRefsO, hk, if_true, badRefs, List.nil_append] at h
          have ht := hserr u h
          simp [scanDocO, hk, scanDoc, ht]
      | vnum n =>
        constructor
        · intro h
          simp only [badRefsO, hk, if_true, badRefs, List.nil_append] at h
          obtain ⟨q, hq⟩ := hsok h
          exact ⟨((k, .vnum n) :: q.1, q.2), by simp [scanDocO, hk, scanDoc, hq]⟩
        · intro u h
          simp only [badRefsO, hk, if_true, badRefs, List.nil_append] at h
          have ht := hserr u h
          simp [scanDocO, hk, scanDoc, ht]
      | varr xs =>
        constructor
        · intro h
          simp only [badRefsO, hk, if_true, List.append_eq_nil] at h
          obtain ⟨p, hp⟩ := hvok (by simpa [badRefs] using h.1)
          obtain ⟨q, hq⟩ := hsok h.2
          exact ⟨((k, p.1) :: q.1, p.2 ++ q.2), by simp [scanDocO, hk, hp, hq]⟩
        · intro u h
          simp only [badRefsO, hk, if_true] at h
          rw [show badRefs (Doc.varr xs) = badRefsL xs from rfl] at h
          cases hbx : badRefsL xs with
          | nil =>
            obtain ⟨p, hp⟩ := hvok (show badRefs (Doc.varr xs) = [] from hbx)
            rw [hbx, List.nil_append] at h
            have ht := hserr u h
            simp [scanDocO, hk, hp, ht]
          | cons b bs =>
            have hbu : (badRefs (Doc.varr xs)).head? = some u := by
              rw [show badRefs (Doc.varr xs) = badRefsL xs from rfl, hbx]
              rw [hbx] at h
              simpa using h
            have hx := hverr u hbu
            simp [scanDocO, hk, hx]
      | vobj kvs2 =>
        constructor
        · intro h
          simp only [badRefsO, hk, if_true, List.append_eq_nil] at h
          obtain ⟨p, hp⟩ := hvok (by simpa [badRefs] using h.1)
          obtain ⟨q, hq⟩ := hsok h.2
          exact ⟨((k, p.1) :: q.1, p.2 ++ q.2), by simp [scanDocO, hk, hp, hq]⟩
        · intro u h
          simp only [badRefsO, hk, if_true] at h
          rw [show badRefs (Doc.vobj kvs2) = badRefsO kvs2 from rfl] at h
          cases hbx : badRefsO kvs2 with
          | nil =>
            obtain ⟨p, hp⟩ := hvok (show badRefs (Doc.vobj kvs2) = [] from hbx)
            rw [hbx, List.nil_append] at h
            have ht := hserr u h
            simp [scanDocO, hk, hp, ht]
          | cons b bs =>
            have hbu : (badRefs (Doc.vobj kvs2)).head? = some u := by
              rw [show badRefs (Doc.vobj kvs2) = badRefsO kvs2 from rfl, hbx]
              rw [hbx] at h
              simpa using h
            have hx := hverr u hbu
            simp [scanDocO, hk, hx]
    · have hk' : (k == "$ref") = false := by simpa using hk
      have hun : badRefsO ((k, v) :: r) = badRefs v ++ badRefsO r := by
        cases v <;> simp [badRefsO, badRefs, hk']
      have hun2 : scanDocO W true base ((k, v) :: r) =
          (do
            let p ← scanDoc W true base v
            let q ← scanDocO W true base r
            Except.ok ((k, p.1) :: q.1, p.2 ++ q.2)) := by
        cases v <;> simp [scanDocO, scanDoc, hk']
      constructor
      · intro h
        rw [hun, List.append_eq_nil] at h
        obtain ⟨p, hp⟩ := hvok h.1
        obtain ⟨q, hq⟩ := hsok h.2
        refine ⟨((k, p.1) :: q.1, p.2 ++ q.2), ?_⟩
        rw [hun2]
        simp [hp, hq]
      · intro u h
        rw [hun] at h
        cases hbx : badRefs v with
        | nil =>
          obtain ⟨p, hp⟩ := hvok hbx
          rw [hbx, List.nil_append] at h
          have ht := hserr u h
          rw [hun2]
          simp [hp, ht]
        | cons b bs =>
          have hbu : (badRefs v).head? = some u := by
            rw [hbx] at h ⊢
            simpa using h
          have hx := hverr u hbu
          rw [hun2]
          simp [hx]
termination_by kvs => sizeOf kvs

end

/-- A join over child Locations that are all already in the Visited Set
succeeds and touches neither the Visited Set nor the fetch trace. -/
theorem loadT_kids_cached (W : World) (opts : Opts) :
    ∀ (cs : List String) (fuel : Nat) (st : LoadState),
      (∀ c ∈ cs, c ∈ st.urlCache) → cs.length < fuel →
      ∃ m sch, loadT W opts fuel (.kids cs) st =
        (.ok m, ⟨sch, st.urlCache, st.fetchTrace⟩) := by
  intro cs
  induction cs with
  | nil =>
    intro fuel st _ hlen
    obtain ⟨f, rfl⟩ : ∃ f, fuel = f + 1 := ⟨fuel - 1, by omega⟩
    exact ⟨st.schemas, st.schemas, rfl⟩
  | cons c cs ih =>
    intro fuel st hc hlen
    obtain ⟨f, rfl⟩ : ∃ f, fuel = f + 1 := ⟨fuel - 1, by omega⟩
    obtain ⟨g, rfl⟩ : ∃ g, f = g + 1 := ⟨f - 1, by simp at hlen; omega⟩
    have hcc : c ∈ st.urlCache := hc c (by simp)
    have hone : loadT W opts (g + 1) (.one (.url c)) st = (.ok st.schemas, st) := by
      simp [loadT, hcc]
    have hstep : loadT W opts (g + 1 + 1) (.kids (c :: cs)) st =
        loadT W opts (g + 1) (.kids cs)
          { st with schemas := st.schemas.foldl (fun m p => aset m p.1 p.2) st.schemas } := by
      rw [loadT, hone]
    rw [hstep]
    exact ih (g + 1)
      { st with schemas := st.schemas.foldl (fun m p => aset m p.1 p.2) st.schemas }
      (fun c' hc' => hc c' (by simp [hc'])) (by simp at hlen ⊢; omega)

/-- C8. Scanning an in-memory (dynamic) document: a reference pointer whose
url-part is non-empty and not `http://`/`https://`-absolute makes the load
fail with the UnresolvableReference error of line 180 (the first such pointer
in traversal order names the error); a document without such pointers scans
successfully, and its load succeeds when its remote children are already in
the Visited Set. -/
theorem C8_dynamic_json_refs :
    (∀ (W : World) (opts : Opts) (fuel : Nat) (st : LoadState) (d : Doc) (u : String),
      (badRefs d).head? = some u →
      load W opts (fuel + 1) (.inline d) st =
        (.error (dynJsonErr u),
          { st with schemas := aset st.schemas VIRTUAL_JSON_URL d })) ∧
    (∀ (W : World) (opts : Opts) (fuel : Nat) (st : LoadState) (d : Doc),
      badRefs d ≠ [] →
      ∃ u, (load W opts (fuel + 1) (.inline d) st).1 = .error (dynJsonErr u)) ∧
    (∀ (W : UrlModel) (base : String) (d : Doc),
      badRefs d = [] → ∃ p, scanDoc W true base d = .ok p) ∧
    (∀ (W : World) (opts : Opts) (fuel : Nat) (st : LoadState) (d d' : Doc)
      (cs : List String),
      scanDoc W.url true VIRTUAL_JSON_URL d = .ok (d', cs) →
      (∀ c ∈ cs, c ∈ st.urlCache) →
      cs.length < fuel + 1 →
      (VIRTUAL_JSON_URL == opts.rootHref) = false →
      ∃ m st', load W opts (fuel + 2) (.inline d) st = (.ok m, st')) := by
  have h1 : ∀ (W : World) (opts : Opts) (fuel : Nat) (st : LoadState) (d : Doc)
      (u : String),
      (badRefs d).head? = some u →
      load W opts (fuel + 1) (.inline d) st =
        (.error (dynJsonErr u),
          { st with schemas := aset st.schemas VIRTUAL_JSON_URL d }) := by
    intro W opts fuel st d u h
    have herr := (scanDoc_dyn W.url VIRTUAL_JSON_URL d).2 u h
    simp [load, loadT, loadBody, aget_aset_self, herr]
  refine ⟨h1, ?_, fun W base d h => (scanDoc_dyn W base d).1 h, ?_⟩
  · intro W opts fuel st d hne
    cases hb : badRefs d with
    | nil => exact absurd hb hne
    | cons b bs =>
      exact ⟨b, by rw [h1 W opts fuel st d b (by rw [hb]; rfl)]⟩
  · intro W opts fuel st d d' cs hscan hc hlen hnr
    obtain ⟨m, sch, hk⟩ := loadT_kids_cached W opts cs (fuel + 1)
      ⟨aset (aset st.schemas VIRTUAL_JSON_URL d) VIRTUAL_JSON_URL d',
        st.urlCache, st.fetchTrace⟩
      (fun c hc' => hc c hc') hlen
    refine ⟨sch, ⟨sch, st.urlCache, st.fetchTrace⟩, ?_⟩
    simp [load, loadT, loadBody, aget_aset_self, hscan, hk, hnr]

/-- C8 witness: an in-memory document with the relative reference `./b.json`
fails with the line-180 error, while the same document shape carrying only a
remote-absolute reference (already visited) loads successfully. -/
theorem C8_witness :
    (badRefs (.vobj [("$ref", .vstr "./b.json#/x")])).head? = some "./b.json" ∧
    (load worldDemo optsRemoteRoot 1
        (.inline (.vobj [("$ref", .vstr "./b.json#/x")])) st0).1 =
      .error (dynJsonErr "./b.json") ∧
    (∃ m st', load worldDemo optsRemoteRoot 3
        (.inline (.vobj [("$ref", .vstr "https://x.com/b.json#/x")]))
        ⟨[], ["https://x.com/b.json"], []⟩ = (.ok m, st')) := by
  refine ⟨by rfl, ?_, ?_⟩
  · rw [C8_dynamic_json_refs.1 worldDemo optsRemoteRoot 0 st0
      (.vobj [("$ref", .vstr "./b.json#/x")]) "./b.json" (by rfl)]
  · exact C8_dynamic_json_refs.2.2.2 worldDemo optsRemoteRoot 1
      ⟨[], ["https://x.com/b.json"], []⟩
      (.vobj [("$ref", .vstr "https://x.com/b.json#/x")])
      (.vobj [("$ref", .vstr "https://x.com/b.json#/x")])
      ["https://x.com/b.json"] (by rfl) (by decide) (by decide) (by decide)

/-! ### Transform-pass rename lemmas -/

/-- One transform iteration only touches the keys `k` and `relId root k`. -/
theorem transformStep_frame (W : UrlModel) (root : String) (m : List (String × Doc))
    (k t : String) (h1 : t ≠ k) (h2 : t ≠ relId root k) :
    aget (transformStep W root m k) t = aget m t := by
  simp only [transformStep]
  by_cases hkr : k ≠ root
  · rw [if_pos hkr]
    by_cases hrel : relId root k ≠ k
    · rw [if_pos hrel, aget_adel_ne _ _ _ h1,
        aget_aset_ne _ _ _ _ h2, aget_aset_ne _ _ _ _ h1]
    · rw [if_neg hrel, aget_aset_ne _ _ _ _ h1]
  · rw [if_neg hkr, aget_aset_ne _ _ _ _ h1]

/-- The fold of transform iterations leaves untouched any key that no
iterated key or relativized identifier collides with. -/
theorem transformFold_frame (W : UrlModel) (root : String) :
    ∀ (ks : List String) (m : List (String × Doc)) (t : String),
      (∀ a ∈ ks, t ≠ a ∧ t ≠ relId root a) →
      aget (ks.foldl (transformStep W root) m) t = aget m t := by
  intro ks
  induction ks with
  | nil => intro m t _; rfl
  | cons k ks ih =>
    intro m t h
    rw [List.foldl_cons, ih _ t (fun a ha => h a (by simp [ha]))]
    exact transformStep_frame W root m k t (h k (by simp)).1 (h k (by simp)).2

/-- A renamed iteration moves the transformed Document to the relativized
key and deletes the old key. -/
theorem transformStep_moved (W : UrlModel) (root : String) (m : List (String × Doc))
    (k : String) (hkr : k ≠ root) (hrel : relId root k ≠ k) :
    aget (transformStep W root m k) (relId root k) =
      some (mapRefs (transformRef W root k) ((aget m k).getD .vnull)) ∧
    aget (transformStep W root m k) k = none := by
  simp only [transformStep]
  rw [if_pos hkr, if_pos hrel]
  exact ⟨by rw [aget_adel_ne _ _ _ hrel, aget_aset_self],
    by rw [aget_adel_self]⟩

/-- A non-renamed iteration (root key, or identifier already relative)
overwrites the entry in place with the transformed Document. -/
theorem transformStep_kept (W : UrlModel) (root : String) (m : List (String × Doc))
    (k : String) (h : relId root k = k ∨ k = root) :
    aget (transformStep W root m k) k =
      some (mapRefs (transformRef W root k) ((aget m k).getD .vnull)) := by
  simp only [transformStep]
  rcases h with h | h
  · by_cases hkr : k ≠ root
    · rw [if_pos hkr, if_neg (by simp [h]), aget_aset_self]
    · rw [if_neg hkr, aget_aset_self]
  · rw [if_neg (by simp [h]), aget_aset_self]

/-- C2. The claim as stated is false: with a Local root, a Remote non-root
entry's relativized identifier is the Remote URL itself (lines 240–242), so no
rename happens and the final Schema Map keeps the absolute
`https://x.com/b.json` key — a non-root key that is not
root-directory-relative. -/
theorem C2_counterexample :
    isFileHref "file:///r/a.json" = true ∧
    (transformPass urlSimple "file:///r/a.json"
        [("file:///r/a.json", .vnull), ("https://x.com/b.json", .vnull)]).map
      (fun p => p.1) = ["file:///r/a.json", "https://x.com/b.json"] :=
  ⟨by decide, by rfl⟩

/-- C2 (amended): in the transform pass, every non-root entry is moved to its
relativized identifier — readable there, with its absolute key deleted when
the identifier actually differs — while an entry whose identifier does not
change (in particular any Remote key under a Local root) is overwritten in
place and keeps its absolute key. -/
theorem C2_rename_moves_entry (W : UrlModel) (root : String) (m : List (String × Doc))
    (k : String) (d : Doc)
    (hnd : (m.map (fun p => p.1)).Nodup)
    (hsafe : ∀ a ∈ m.map (fun p => p.1), relId root a ≠ a →
      relId root a ∉ m.map (fun p => p.1))
    (hinj : ∀ a ∈ m.map (fun p => p.1), ∀ b ∈ m.map (fun p => p.1), a ≠ b →
      relId root a ≠ relId root b)
    (hk : k ∈ m.map (fun p => p.1))
    (hd : aget m k = some d)
    (hkr : k ≠ root) :
    aget (transformPass W root m) (relId root k) =
      some (mapRefs (transformRef W root k) d) ∧
    (relId root k ≠ k → aget (transformPass W root m) k = none) ∧
    (isFileHref k = false → relId root k = k) ∧
    (isFileHref k = true → isFileHref root = true →
      relId root k = posixRelative (posixDirname root) k) := by
  have hiii : isFileHref k = false → relId root k = k := by
    intro hf
    simp [relId, hf]
  have hiv : isFileHref k = true → isFileHref root = true →
      relId root k = posixRelative (posixDirname root) k := by
    intro hf hr
    simp [relId, hf, hr]
  obtain ⟨pre, post, hks⟩ := List.append_of_mem hk
  have hnd' := hnd
  rw [hks, List.nodup_append] at hnd'
  have hkpre : k ∉ pre := fun hs => (hnd'.2.2 hs) (by simp)
  have hkpost : k ∉ post := fun ht => (List.nodup_cons.mp hnd'.2.1).1 ht
  have hmem : ∀ a, a ∈ pre ∨ a ∈ post → a ∈ m.map (fun p => p.1) := by
    intro a ha
    rw [hks]
    rcases ha with h | h
    · exact List.mem_append_of_mem_left _ h
    · exact List.mem_append_of_mem_right _ (by simp [h])
  unfold transformPass
  rw [hks, List.foldl_append, List.foldl_cons]
  have hm1k : aget (pre.foldl (transformStep W root) m) k = some d := by
    rw [transformFold_frame W root pre m k ?_]
    · exact hd
    · intro a ha
      have hak : a ≠ k := fun h => hkpre (h ▸ ha)
      refine ⟨fun h => hak h.symm, ?_⟩
      by_cases hra : relId root a = a
      · rw [hra]
        exact fun h => hak h.symm
      · intro h
        exact hsafe a (hmem a (Or.inl ha)) hra (h ▸ hk)
  have hpostfr : ∀ t, (t = relId root k ∨ t = k) →
      aget (post.foldl (transformStep W root)
        (transformStep W root (pre.foldl (transformStep W root) m) k)) t =
      aget (transformStep W root (pre.foldl (transformStep W root) m) k) t := by
    intro t ht
    apply transformFold_frame
    intro b hb
    have hbk : b ≠ k := fun h => hkpost (h ▸ hb)
    have hbm : b ∈ m.map (fun p => p.1) := hmem b (Or.inr hb)
    constructor
    · rcases ht with rfl | rfl
      · by_cases hrel : relId root k ≠ k
        · intro h
          exact hsafe k hk hrel (h ▸ hbm)
        · rw [not_ne_iff.mp hrel]
          exact fun h => hbk h.symm
      · exact fun h => hbk h.symm
    · rcases ht with rfl | rfl
      · exact hinj k hk b hbm (fun h => hbk h.symm)
      · by_cases hrb : relId root b = b
        · rw [hrb]
          exact fun h => hbk h.symm
        · intro h
          exact hsafe b hbm hrb (h ▸ hk)
  by_cases hrel : relId root k ≠ k
  · obtain ⟨hmv1, hmv2⟩ :=
      transformStep_moved W root (pre.foldl (transformStep W root) m) k hkr hrel
    rw [hm1k] at hmv1
    simp only [Option.getD_some] at hmv1
    refine ⟨?_, fun _ => ?_, hiii, hiv⟩
    · rw [hpostfr _ (Or.inl rfl), hmv1]
    · rw [hpostfr _ (Or.inr rfl), hmv2]
  · have hrk : relId root k = k := not_ne_iff.mp hrel
    have hkept :=
      transformStep_kept W root (pre.foldl (transformStep W root) m) k (Or.inl hrk)
    rw [hm1k] at hkept
    simp only [Option.getD_some] at hkept
    refine ⟨?_, fun hcontra => absurd hrk hcontra, hiii, hiv⟩
    rw [hrk, hpostfr _ (Or.inr rfl), hkept]

/-- C2 witness: a Local non-root entry `file:///r/b.json` is readable under
its root-relative key `b.json` after the pass, and its absolute key is gone. -/
theorem C2_witness :
    aget (transformPass urlSimple "file:///r/a.json"
      [("file:///r/a.json", .vnull), ("file:///r/b.json", .vnull)]) "b.json" =
      some .vnull ∧
    aget (transformPass urlSimple "file:///r/a.json"
      [("file:///r/a.json", .vnull), ("file:///r/b.json", .vnull)])
      "file:///r/b.json" = none := by
  have h := C2_rename_moves_entry urlSimple "file:///r/a.json"
    [("file:///r/a.json", .vnull), ("file:///r/b.json", .vnull)]
    "file:///r/b.json" .vnull (by decide) (by decide) (by decide) (by decide)
    (by rfl) (by decide)
  constructor
  · have h1 := h.1
    rw [show relId "file:///r/a.json" "file:///r/b.json" = "b.json" from by decide] at h1
    exact h1.trans (by rfl)
  · exact h.2.1 (by decide)

end OpenapiLoad
